import Mathlib

/-!
Shallow embedding of the rikuesuto HTTP client's request execution engine:
header table validation (src/unnamed/part_000, node-fetch derived Headers),
the binary payload ("Blob") abstraction, the Response accessors
(src/src/Response.ts), and the redirect / body-serialization / decompression
logic of Request.exec (src/src/Request.ts).  Definitions are translated
directly from the TypeScript source; theorems settle the specification's
claims about them.
-/

namespace Rikuesuto

/-- Error kinds raised by header validation and the Headers constructor:
`invalidHeaderName` for `ERR_INVALID_HTTP_TOKEN`, `invalidHeaderValue` for
`ERR_INVALID_CHAR`, `typeError` for the constructor's shape errors. -/
inductive HeaderError where
  | invalidHeaderName
  | invalidHeaderValue
  | typeError
deriving DecidableEq, Repr

/-- Characters admitted by the source's header-name regex
`^[\^`\-\w!#$%&"*+.|~]+$` (part_000 line 12): letters, digits, underscore
(the `\w` class) plus the listed punctuation, given here by code point:
94 `^`, 96 backtick, 45 `-`, 95 `_`, 33 `!`, 35 `#`, 36 `$`, 37 `%`,
38 `&`, 34 double quote, 42 `*`, 43 `+`, 46 `.`, 124 `|`, 126 `~`. -/
def isNameChar (c : Char) : Bool :=
  let n := c.toNat
  (65 ≤ n && n ≤ 90) || (97 ≤ n && n ≤ 122) || (48 ≤ n && n ≤ 57) ||
  n == 94 || n == 96 || n == 45 || n == 95 || n == 33 || n == 35 ||
  n == 36 || n == 37 || n == 38 || n == 34 || n == 42 || n == 43 ||
  n == 46 || n == 124 || n == 126

/-- Whether a header name matches the source's token regex: nonempty and
made only of `isNameChar` characters. -/
def isValidHeaderName (name : String) : Bool :=
  !name.isEmpty && name.toList.all isNameChar

/-- Characters allowed in a header value by the source's regex
`[^\t -~\u0080-ÿ]` test (part_000 line 24): horizontal tab,
printable ASCII, Latin-1 supplement. -/
def isValueChar (c : Char) : Bool :=
  let n := c.toNat
  n == 9 || (32 ≤ n && n ≤ 126) || (128 ≤ n && n ≤ 255)

/-- Whether a header value passes `validateHeaderValue`. -/
def isValidHeaderValue (value : String) : Bool :=
  value.toList.all isValueChar

/-- Embeds `validateHeaderName` (part_000 lines 11-17): throws
`ERR_INVALID_HTTP_TOKEN` when the name fails the token regex. -/
def validateHeaderName (name : String) : Except HeaderError Unit :=
  if isValidHeaderName name then .ok () else .error .invalidHeaderName

/-- Embeds `validateHeaderValue` (part_000 lines 23-29): throws
`ERR_INVALID_CHAR` when the value holds a forbidden character. -/
def validateHeaderValue (value : String) : Except HeaderError Unit :=
  if isValidHeaderValue value then .ok () else .error .invalidHeaderValue

/-- ASCII lowercasing of one character, as JavaScript's `toLowerCase`
acts on the characters a validated header token can contain. -/
def lowerChar (c : Char) : Char :=
  if 65 ≤ c.toNat ∧ c.toNat ≤ 90 then Char.ofNat (c.toNat + 32) else c

/-- Embeds `String.prototype.toLowerCase()` on header names; names reach
it only after token validation, so they are ASCII and the per-character
ASCII mapping is exact. -/
def toLowerCase (s : String) : String := ⟨s.toList.map lowerChar⟩

/-- A header table is the ordered list of (name, value) pairs held by the
underlying `URLSearchParams`; names are lowercased before storage. -/
abbrev Headers := List (String × String)

/-- Embeds the proxied `append` (part_000 lines 90-96): validate the name
and value, then store the lowercased name with the value at the end. -/
def Headers.append (h : Headers) (name value : String) :
    Except HeaderError Headers := do
  validateHeaderName name
  validateHeaderValue value
  pure (h ++ [(toLowerCase name, value)])

/-- Embeds `URLSearchParams.set`: replace the first pair with the given
name in place, drop the remaining pairs with that name, or append when the
name is absent. -/
def Headers.setRaw : Headers → String → String → Headers
  | [], n, v => [(n, v)]
  | p :: rest, n, v =>
    if p.1 = n then (n, v) :: rest.filter (fun q => q.1 != n)
    else p :: Headers.setRaw rest n v

/-- Embeds the proxied `set` (part_000 lines 90-96): validate the name and
value, then call the underlying set with the lowercased name. -/
def Headers.set (h : Headers) (name value : String) :
    Except HeaderError Headers := do
  validateHeaderName name
  validateHeaderValue value
  pure (h.setRaw (toLowerCase name) value)

/-- Embeds the proxied `delete` (part_000 lines 98-105): validate the name,
then remove every pair with the lowercased name. -/
def Headers.delete (h : Headers) (name : String) :
    Except HeaderError Headers := do
  validateHeaderName name
  pure (h.filter (fun q => q.1 != toLowerCase name))

/-- Embeds the proxied `has` (part_000 lines 98-105): validate the name,
then report whether some pair carries the lowercased name. -/
def Headers.has (h : Headers) (name : String) : Except HeaderError Bool := do
  validateHeaderName name
  pure (h.any (fun q => q.1 == toLowerCase name))

/-- Embeds the proxied `getAll` (part_000 lines 98-105): validate the name,
then return the values of all pairs with the lowercased name, in order. -/
def Headers.getAll (h : Headers) (name : String) :
    Except HeaderError (List String) := do
  validateHeaderName name
  pure ((h.filter (fun q => q.1 == toLowerCase name)).map Prod.snd)

/-- Embeds the validate-and-lowercase map of the Headers constructor
(part_000 lines 76-85): each (name, value) pair is validated in order and
its name lowercased; the first thrown validation error aborts
construction.  This is also the record-initializer path (line 49). -/
def Headers.ofPairs : List (String × String) → Except HeaderError Headers
  | [] => .ok []
  | p :: rest => do
    validateHeaderName p.1
    validateHeaderValue p.2
    let tail ← Headers.ofPairs rest
    pure ((toLowerCase p.1, p.2) :: tail)

/-- Embeds `URLSearchParams.sort` as invoked by the proxied `keys`
(part_000 line 109): stable sort of the pairs by name. -/
def Headers.sortPairs (h : Headers) : Headers :=
  h.mergeSort (fun a b => decide (a.1 ≤ b.1))

/-- Embeds the JavaScript `new Set(iterable)` deduplication used by `keys`
(part_000 line 110): keep the first occurrence of each element. -/
def dedupFirst (seen : List String) : List String → List String
  | [] => []
  | x :: xs => if x ∈ seen then dedupFirst seen xs else x :: dedupFirst (x :: seen) xs

/-- Embeds the proxied `keys` (part_000 lines 107-111): sort the pairs by
name, then deduplicate the name sequence keeping first occurrences. -/
def Headers.keys (h : Headers) : List String :=
  dedupFirst [] (h.sortPairs.map Prod.fst)

/-- Embeds the chunking reduce inside `fromRawHeaders` (part_000 lines
209-212): split the flat list into consecutive windows of two. -/
def chunk2 : List String → List (List String)
  | [] => []
  | [x] => [[x]]
  | x :: y :: rest => [x, y] :: chunk2 rest

/-- The flat alternating name/value list denoted by a list of pairs, the
shape `http.IncomingMessage.rawHeaders` delivers. -/
def flattenPairs : List (String × String) → List String
  | [] => []
  | p :: rest => p.1 :: p.2 :: flattenPairs rest

/-- Embeds the filter inside `fromRawHeaders` (part_000 lines 213-221): a
pair survives when its name and value both validate; a trailing singleton's
missing value Stringifies to "undefined". -/
def pairOk : List String → Bool
  | [n, v] => isValidHeaderName n && isValidHeaderValue v
  | [n] => isValidHeaderName n && isValidHeaderValue "undefined"
  | _ => false

/-- Embeds the tuple-shape check of the iterable constructor path
(part_000 lines 54-69): every pair must be a two-element sequence,
otherwise a TypeError is thrown before any validation runs. -/
def headersShape : List (List String) → Except HeaderError (List (String × String))
  | [] => .ok []
  | [n, v] :: rest => (headersShape rest).map (fun t => (n, v) :: t)
  | _ :: _ => .error .typeError

/-- Embeds the iterable path of the Headers constructor (part_000 lines
50-70, 76-85): every pair must be a two-element tuple, then each pair is
validated and its name lowercased. -/
def headersOfLists (ps : List (List String)) : Except HeaderError Headers := do
  let pairs ← headersShape ps
  Headers.ofPairs pairs

/-- Embeds `fromRawHeaders` (part_000 lines 206-223): chunk the flat raw
header list into pairs, drop the pairs that fail validation, and build a
Headers table from the survivors. -/
def fromRawHeaders (l : List String) : Except HeaderError Headers :=
  headersOfLists ((chunk2 l).filter pairOk)

/-- Embeds `Response.ok` (src/src/Response.ts lines 56-58):
`statusCode <= 200 && statusCode < 300`. -/
def Response.ok (statusCode : Nat) : Bool :=
  statusCode ≤ 200 && statusCode < 300

mutual
/-- A Blob as held by the weak-map side table (part_000 lines 309, 453-457):
its stored `size` and its normalized part list; the media-type tag plays no
role in any byte-level operation and is omitted. -/
inductive Blob where
  | mk (size : Nat) (parts : List BlobPart)
deriving Repr
/-- A normalized Blob part (part_000 lines 320-340): after construction a
part is either a raw byte buffer (views, array-buffers and strings are
copied into buffers eagerly) or a nested Blob. -/
inductive BlobPart where
  | buf (bytes : List Nat)
  | blob (b : Blob)
deriving Repr
end

/-- Stored size of a blob (getter `size`, part_000 lines 353-355). -/
def Blob.size : Blob → Nat
  | .mk s _ => s

/-- Stored part list of a blob. -/
def Blob.parts : Blob → List BlobPart
  | .mk _ ps => ps

/-- Size of one part as read by the constructor and by `slice`
(part_000 lines 338, 392-394): `byteLength` for buffers, the stored `size`
for nested blobs. -/
def BlobPart.storedSize : BlobPart → Nat
  | .buf l => l.length
  | .blob b => b.size

/-- Embeds `Buffer.prototype.slice(start, end)`: negative indices count
from the end, indices clamp to `[0, length]`, and an empty buffer results
when the clamped end does not exceed the clamped start. -/
def bufSlice (l : List Nat) (a b : Int) : List Nat :=
  let len : Int := (l.length : Int)
  let s := if a < 0 then max (len + a) 0 else min a len
  let e := if b < 0 then max (len + b) 0 else min b len
  (l.take e.toNat).drop s.toNat

mutual
/-- Embeds `Blob.slice` (part_000 lines 380-416): clamp `start`/`end` to
the stored size (negatives counting from the end), set
`span = max(relativeEnd - relativeStart, 0)`, walk the part list
collecting chunks, and record `span` as the new blob's size.  Note the
walk decrements `relativeEnd` only in the skip branch, exactly as the
source does. -/
def Blob.slice : Blob → Int → Int → Blob
  | .mk size parts, start, endp =>
    let s : Int := (size : Int)
    let relativeStart := if start < 0 then max (s + start) 0 else min start s
    let relativeEnd := if endp < 0 then max (s + endp) 0 else min endp s
    let span := max (relativeEnd - relativeStart) 0
    Blob.mk span.toNat (sliceLoop parts relativeStart relativeEnd span 0)

/-- Embeds the `for (const part of parts)` loop of `Blob.slice` (part_000
lines 391-410): a part wholly before `relativeStart` is skipped with both
cursors decremented; otherwise the chunk
`part.slice(relativeStart, Math.min(size, relativeEnd))` is pushed,
`added` grows by the chunk's recorded size, `relativeStart` resets to 0,
and the loop breaks once `added >= span`. -/
def sliceLoop (parts : List BlobPart) (relativeStart relativeEnd span added : Int) :
    List BlobPart :=
  match parts with
  | [] => []
  | part :: rest =>
    let psize : Int := (part.storedSize : Int)
    if relativeStart ≠ 0 ∧ psize ≤ relativeStart then
      sliceLoop rest (relativeStart - psize) (relativeEnd - psize) span added
    else
      let chunk := slicePart part relativeStart (min psize relativeEnd)
      let added' := added + (chunk.storedSize : Int)
      if added' ≥ span then [chunk]
      else chunk :: sliceLoop rest 0 relativeEnd span added'

/-- Slicing of a single part inside the loop: buffers via `Buffer.slice`,
nested blobs via the recursive `Blob.slice`. -/
def slicePart : BlobPart → Int → Int → BlobPart
  | .buf l, a, b => .buf (bufSlice l a b)
  | .blob b, a, e => .blob (b.slice a e)
end

mutual
/-- Embeds the flattened output of `stream()` (part_000 lines 367-372,
421-425): buffers are yielded whole, nested blobs recursively yield their
own stream; the stored sizes play no role here. -/
def Blob.streamBytes : Blob → List Nat
  | .mk _ parts => streamParts parts
/-- Stream of a part list, in order. -/
def streamParts : List BlobPart → List Nat
  | [] => []
  | .buf l :: rest => l ++ streamParts rest
  | .blob b :: rest => b.streamBytes ++ streamParts rest
end

/-- Embeds `data()` (part_000 lines 438-448): allocate a zero-filled
`Uint8Array(size)` and write each streamed chunk at the running offset.
A chunk reaching past the end raises a `RangeError` (modelled as `none`);
since offsets only grow, that happens exactly when the total streamed
length exceeds the stored size. -/
def Blob.dataBytes (b : Blob) : Option (List Nat) :=
  let s := b.streamBytes
  if s.length ≤ b.size then some (s ++ List.replicate (b.size - s.length) 0) else none

/-- Sum of the recorded sizes of a part list; the constructor accumulates
exactly this value into `size` (part_000 lines 318, 338). -/
def partsStoredSum (ps : List BlobPart) : Nat :=
  (ps.map BlobPart.storedSize).sum

/-- Embeds the Blob constructor on already-normalized parts (part_000
lines 317-348): the stored size is the sum of the parts' sizes. -/
def Blob.fromParts (ps : List BlobPart) : Blob :=
  .mk (partsStoredSum ps) ps

mutual
/-- Size consistency: the stored size equals the sum of the parts' sizes,
recursively at every nesting level.  Every constructor-built blob whose
nested blob parts are themselves consistent satisfies this. -/
def Blob.wfb : Blob → Bool
  | .mk size parts => partsWfb parts && (size == partsStoredSum parts)
/-- Size consistency for each part of a list. -/
def partsWfb : List BlobPart → Bool
  | [] => true
  | .buf _ :: rest => partsWfb rest
  | .blob b :: rest => b.wfb && partsWfb rest
end

/-- Runtime shapes a request body can take in `Request.exec` (src/src/
Request.ts lines 311-319): a plain structured value (modelled as a flat
object of string fields), a pre-built `Buffer`, a `Blob`, or a plain
string.  The first three are JavaScript objects; a string is not. -/
inductive RequestBody where
  | obj (fields : List (String × String))
  | buffer (bytes : List Nat)
  | blob (b : Blob)
  | str (s : String)

/-- UTF-8 encoding of one character. -/
def charUtf8 (c : Char) : List Nat :=
  let n := c.toNat
  if n < 128 then [n]
  else if n < 2048 then [192 + n / 64, 128 + n % 64]
  else if n < 65536 then [224 + n / 4096, 128 + (n / 64) % 64, 128 + n % 64]
  else [240 + n / 262144, 128 + (n / 4096) % 64, 128 + (n / 64) % 64, 128 + n % 64]

/-- UTF-8 encoding of a string: the bytes the transport receives when a
string is written to the request. -/
def utf8Bytes (s : String) : List Nat :=
  (s.toList.map charUtf8).flatten

/-- Model of `JSON.stringify` on the body shapes above.  A `Buffer`
serializes through `Buffer.prototype.toJSON` as
`\x7b"type":"Buffer","data":[..]\x7d`; a `Blob` has no own enumerable
properties (its state lives in a weak map), so it serializes as the empty
object; object fields are taken escape-free. -/
def jsonStringify : RequestBody → String
  | .obj fields =>
    "\x7b" ++ String.intercalate ","
      (fields.map (fun f => "\"" ++ f.1 ++ "\":\"" ++ f.2 ++ "\"")) ++ "\x7d"
  | .buffer bytes =>
    "\x7b\"type\":\"Buffer\",\"data\":[" ++
      String.intercalate "," (bytes.map (fun n => toString n)) ++ "]\x7d"
  | .blob _ => "\x7b\x7d"
  | .str s => "\"" ++ s ++ "\""

/-- Embeds the body write of `Request.exec` (src/src/Request.ts lines
311-319).  The source runs `let _body = this._body`, then
`if (this._body instanceof Object) _body = JSON.stringify(this._body)`
(true for objects, Buffers and Blobs, false for strings), then
`if (this._body instanceof Blob) _body = this._body.data()` which for a
Blob replaces the stringification with the awaited `data()` contents, and
finally `req.write(_body)`.  The result is the byte list the transport
receives; `none` models a rejected `data()` promise. -/
def execWriteBody : RequestBody → Option (List Nat)
  | .obj fields => some (utf8Bytes (jsonStringify (.obj fields)))
  | .buffer bytes => some (utf8Bytes (jsonStringify (.buffer bytes)))
  | .blob bl => bl.dataBytes
  | .str s => some (utf8Bytes s)

/-- JavaScript value stored under the `body` key of an options object. -/
inductive JsVal where
  | nullv
  | strv (s : String)
deriving DecidableEq, Repr

/-- Value of the `follow` option: a boolean toggle or a numeric cap. -/
inductive FollowOpt where
  | boolv (b : Bool)
  | natv (n : Nat)
deriving DecidableEq, Repr

/-- The `RequestData` options bag (src/src/Request.ts lines 354-399),
projected onto the fields the defaults carry and the constructor reads:
`method`, `body`, `timeout`, `follow`, `compressData`.  `none` means the
key is absent from the object. -/
structure RequestData where
  method : Option String
  body : Option JsVal
  timeout : Option Nat
  follow : Option FollowOpt
  compressData : Option Bool
deriving DecidableEq, Repr

/-- The pristine module-level `defaultRequestOptions` object (part_000
lines 287-294): `method: "get"`, `body: null`, `follow: false`,
`compressData: false`; no `timeout` key. -/
def defaultRequestOptions : RequestData :=
  { method := some "get", body := some .nullv, timeout := none,
    follow := some (.boolv false), compressData := some false }

/-- Per-key effect of `Object.assign(target, source)`: a key present on
the source overwrites the target's, otherwise the target's survives. -/
def assignField {α : Type} : Option α → Option α → Option α
  | _, some v => some v
  | t, none => t

/-- Embeds `Object.assign(defaultRequestOptions, options)` (src/src/
Request.ts line 63): every own key of `options` is copied into the shared
defaults object, whose (mutated) identity is both the merge result and the
next construction's defaults. -/
def objAssign (target source : RequestData) : RequestData :=
  { method := assignField target.method source.method,
    body := assignField target.body source.body,
    timeout := assignField target.timeout source.timeout,
    follow := assignField target.follow source.follow,
    compressData := assignField target.compressData source.compressData }

/-- The fields of a constructed `Request` observable through `_method`,
`_body` and `_options` (src/src/Request.ts lines 62-79). -/
structure BuiltRequest where
  method : String
  body : Option JsVal
  timeout : Option Nat
  follow : Option FollowOpt
  compressData : Option Bool
deriving DecidableEq, Repr

/-- Embeds the `Request` constructor's option handling (src/src/Request.ts
lines 62-79): `options = Object.assign(defaultRequestOptions, options)`
mutates the shared defaults object, then `_method = options.method ?? "get"`,
`_body = options.body`, `_options = options`.  Returns the new state of the
shared defaults object together with the constructed request's fields. -/
def Request.construct (sharedDefaults options : RequestData) :
    RequestData × BuiltRequest :=
  let merged := objAssign sharedDefaults options
  (merged,
   { method := merged.method.getD "get",
     body := merged.body,
     timeout := merged.timeout,
     follow := merged.follow,
     compressData := merged.compressData })

/-- An options object with no own keys, `\x7b\x7d`. -/
def emptyOptions : RequestData :=
  { method := none, body := none, timeout := none, follow := none,
    compressData := none }

/-- One network response as seen by the redirect check of `Request.exec`
(src/src/Request.ts lines 268-281): its status code and its `Location`
header, if any. -/
structure RawResponse where
  statusCode : Nat
  location : Option String
deriving DecidableEq, Repr

/-- Embeds the redirect recursion of `Request.exec` (src/src/Request.ts
lines 268-281) over the chain of responses the transport would deliver,
with `follow` a numeric cap (truthy iff nonzero).  When the response
carries a `Location` header, `follow` is truthy and
`this.redirects !== this._options.follow`, a new request is built with the
same options and `req.redirects = this.redirects` — the counter is copied,
not incremented — and executed recursively; otherwise the current response
is returned.  The result pairs the number of additional requests issued
with the final response; `none` means the chain was exhausted while still
following. -/
def execFollow (follow : Nat) : Nat → List RawResponse → Option (Nat × RawResponse)
  | _, [] => none
  | redirects, r :: rest =>
    if r.location.isSome ∧ follow ≠ 0 ∧ redirects ≠ follow then
      (execFollow follow redirects rest).map (fun p => (p.1 + 1, p.2))
    else some (0, r)

/-- Embeds `readable.pipe(destination)`: the destination receives the
transform of the source's bytes and is returned. -/
def pipeStream (chunks : List (List Nat)) (transform : List Nat → List Nat) :
    List (List Nat) :=
  [transform chunks.flatten]

/-- Embeds the response byte flow of `Request.exec` (src/src/Request.ts
lines 261-296).  When `compressData` is set and `content-encoding` is
`gzip` (resp. `deflate`), the source calls `resp.pipe(zlib.createGunzip())`
(resp. `resp.pipe(zlib.createDeflate())`) and discards the returned
stream; the `data` listener that fills the Response buffer is then
installed on `resp` itself (line 285), so the buffer accumulates the raw
network chunks in delivery order. -/
def execResponseBuffer (compressData : Bool)
    (createGunzip createDeflate : List Nat → List Nat)
    (contentEncoding : Option String) (respChunks : List (List Nat)) : List Nat :=
  let _pipedGzip :=
    if compressData ∧ contentEncoding = some "gzip" then
      some (pipeStream respChunks createGunzip)
    else none
  let _pipedDeflate :=
    if compressData ∧ contentEncoding = some "deflate" then
      some (pipeStream respChunks createDeflate)
    else none
  respChunks.flatten

/-- A two-part consistent blob used to exercise `slice`: ten bytes split
into two five-byte buffers. -/
def blobTwoBuf : Blob :=
  Blob.fromParts [.buf [0, 1, 2, 3, 4], .buf [5, 6, 7, 8, 9]]

/-- A consistent blob with a nested blob part, used as a concrete witness
input. -/
def blobNested : Blob :=
  Blob.fromParts
    [.buf [1, 2, 3],
     .blob (Blob.fromParts [.buf [4, 5], .blob (Blob.fromParts [.buf [6]])]),
     .buf [7, 8]]

/-! Helper lemmas about sizes, streams and well-formed blobs. -/

theorem partsStoredSum_nil : partsStoredSum [] = 0 := rfl

theorem partsStoredSum_cons (p : BlobPart) (ps : List BlobPart) :
    partsStoredSum (p :: ps) = p.storedSize + partsStoredSum ps := by
  simp [partsStoredSum]

mutual
theorem Blob.wfb_streamLen : (b : Blob) → b.wfb = true →
    b.streamBytes.length = b.size
  | .mk size parts, h => by
    simp only [Blob.wfb, Bool.and_eq_true, beq_iff_eq] at h
    simpa [Blob.streamBytes, Blob.size, h.2] using partsWfb_streamLen parts h.1

theorem partsWfb_streamLen : (ps : List BlobPart) → partsWfb ps = true →
    (streamParts ps).length = partsStoredSum ps
  | [], _ => rfl
  | .buf l :: rest, h => by
    simp only [partsWfb] at h
    simp [streamParts, partsStoredSum_cons, partsWfb_streamLen rest h,
      BlobPart.storedSize]
  | .blob b :: rest, h => by
    simp only [partsWfb, Bool.and_eq_true] at h
    simp [streamParts, partsStoredSum_cons, partsWfb_streamLen rest h.2,
      Blob.wfb_streamLen b h.1, BlobPart.storedSize]
end

theorem Blob.wfb_dataBytes (b : Blob) (h : b.wfb = true) :
    b.dataBytes = some b.streamBytes := by
  simp [Blob.dataBytes, Blob.wfb_streamLen b h]

theorem bufSlice_full (l : List Nat) : bufSlice l 0 (l.length : Int) = l := by
  have hnn : ¬ ((l.length : Int) < 0) := by omega
  simp [bufSlice, hnn]

theorem Blob.slice_zero_eq (size : Nat) (parts : List BlobPart) :
    Blob.slice (.mk size parts) 0 (size : Int) =
      Blob.mk size (sliceLoop parts 0 (size : Int) (size : Int) 0) := by
  have hnn : ¬ ((size : Int) < 0) := by omega
  simp [Blob.slice, hnn]

mutual
theorem sliceLoop_zero_full : (ps : List BlobPart) → partsWfb ps = true →
    ∀ (relativeEnd span added : Int),
      (partsStoredSum ps : Int) ≤ relativeEnd →
      span = added + (partsStoredSum ps : Int) →
      streamParts (sliceLoop ps 0 relativeEnd span added) = streamParts ps
  | [], _, _, _, _, _, _ => rfl
  | .buf l :: rest, h, relativeEnd, span, added, hE, hspan => by
    simp only [partsWfb] at h
    rw [partsStoredSum_cons] at hE hspan
    simp only [BlobPart.storedSize] at hE hspan
    have hle : ((l.length : Int)) ≤ relativeEnd := by push_cast at hE; omega
    simp only [sliceLoop, BlobPart.storedSize, slicePart, ne_eq,
      not_true_eq_false, false_and, if_false]
    rw [min_eq_left hle, bufSlice_full]
    rcases Nat.eq_zero_or_pos (partsStoredSum rest) with hz | hpos
    · have hbreak : added + (l.length : Int) ≥ span := by
        push_cast at hspan; omega
      rw [if_pos hbreak]
      have hnil : streamParts rest = [] := by
        have hlen := partsWfb_streamLen rest h
        rw [hz] at hlen
        exact List.eq_nil_of_length_eq_zero hlen
      simp [streamParts, hnil]
    · have hnb : ¬ (added + (l.length : Int) ≥ span) := by
        push_cast at hspan; omega
      rw [if_neg hnb]
      simp only [streamParts]
      rw [sliceLoop_zero_full rest h relativeEnd span (added + (l.length : Int))
        (by push_cast at hE ⊢; omega) (by push_cast at hspan ⊢; omega)]
  | .blob b :: rest, h, relativeEnd, span, added, hE, hspan => by
    simp only [partsWfb, Bool.and_eq_true] at h
    rw [partsStoredSum_cons] at hE hspan
    simp only [BlobPart.storedSize] at hE hspan
    have hle : ((b.size : Int)) ≤ relativeEnd := by push_cast at hE; omega
    obtain ⟨hsz, hst⟩ := Blob.slice_zero_size b h.1
    simp only [sliceLoop, BlobPart.storedSize, slicePart, ne_eq,
      not_true_eq_false, false_and, if_false]
    rw [min_eq_left hle, hsz]
    rcases Nat.eq_zero_or_pos (partsStoredSum rest) with hz | hpos
    · have hbreak : added + (b.size : Int) ≥ span := by
        push_cast at hspan; omega
      rw [if_pos hbreak]
      have hnil : streamParts rest = [] := by
        have hlen := partsWfb_streamLen rest h.2
        rw [hz] at hlen
        exact List.eq_nil_of_length_eq_zero hlen
      simp [streamParts, hnil, hst]
    · have hnb : ¬ (added + (b.size : Int) ≥ span) := by
        push_cast at hspan; omega
      rw [if_neg hnb]
      simp only [streamParts]
      rw [sliceLoop_zero_full rest h.2 relativeEnd span (added + (b.size : Int))
        (by push_cast at hE ⊢; omega) (by push_cast at hspan ⊢; omega), hst]

theorem Blob.slice_zero_size : (b : Blob) → b.wfb = true →
    ((b.slice 0 (b.size : Int)).size = b.size ∧
     (b.slice 0 (b.size : Int)).streamBytes = b.streamBytes)
  | .mk size parts, h => by
    simp only [Blob.wfb, Bool.and_eq_true, beq_iff_eq] at h
    simp only [Blob.size, Blob.slice_zero_eq]
    refine ⟨trivial, ?_⟩
    simp only [Blob.streamBytes]
    exact sliceLoop_zero_full parts h.1 (size : Int) (size : Int) 0
      (by rw [h.2]) (by rw [h.2]; omega)
end

theorem chunk2_flattenPairs : ∀ ps : List (String × String),
    chunk2 (flattenPairs ps) = ps.map (fun p => [p.1, p.2])
  | [] => rfl
  | p :: rest => by
    simp [flattenPairs, chunk2, chunk2_flattenPairs rest]

theorem ofPairs_valid : ∀ ps : List (String × String),
    (∀ p ∈ ps, isValidHeaderName p.1 = true ∧ isValidHeaderValue p.2 = true) →
    Headers.ofPairs ps = .ok (ps.map (fun p => (toLowerCase p.1, p.2)))
  | [], _ => rfl
  | p :: rest, h => by
    have hp := h p (by simp)
    have hrest := ofPairs_valid rest (fun q hq => h q (by simp [hq]))
    simp [Headers.ofPairs, validateHeaderName, validateHeaderValue,
      hp.1, hp.2, hrest, Except.bind, Bind.bind, Except.pure, Pure.pure]

theorem headersShape_ofMap : ∀ ps : List (String × String),
    headersShape (ps.map (fun p => [p.1, p.2])) = .ok ps
  | [] => rfl
  | p :: rest => by
    simp [headersShape, headersShape_ofMap rest, Except.map]

theorem filter_pairOk_map : ∀ ps : List (String × String),
    (ps.map (fun p => [p.1, p.2])).filter pairOk =
      (ps.filter (fun p => isValidHeaderName p.1 && isValidHeaderValue p.2)).map
        (fun p => [p.1, p.2])
  | [] => rfl
  | p :: rest => by
    by_cases hv : (isValidHeaderName p.1 && isValidHeaderValue p.2) = true
    · simp [List.filter, pairOk, hv, filter_pairOk_map rest]
    · simp [List.filter, pairOk, hv, filter_pairOk_map rest]

theorem mem_dedupFirst (x : String) : ∀ (l seen : List String),
    x ∈ dedupFirst seen l ↔ x ∈ l ∧ x ∉ seen
  | [], seen => by simp [dedupFirst]
  | y :: ys, seen => by
    by_cases hys : y ∈ seen
    · rw [dedupFirst, if_pos hys, mem_dedupFirst x ys seen]
      constructor
      · rintro ⟨hx, hns⟩; exact ⟨List.mem_cons_of_mem y hx, hns⟩
      · rintro ⟨hx, hns⟩
        rcases List.mem_cons.1 hx with hxy | hx
        · exact absurd (hxy ▸ hys) hns
        · exact ⟨hx, hns⟩
    · rw [dedupFirst, if_neg hys]
      constructor
      · intro hx
        rcases List.mem_cons.1 hx with hxy | hx
        · exact ⟨hxy ▸ List.mem_cons_self y ys, hxy ▸ hys⟩
        · have := (mem_dedupFirst x ys (y :: seen)).1 hx
          refine ⟨List.mem_cons_of_mem y this.1,
            fun hs => this.2 (List.mem_cons_of_mem y hs)⟩
      · rintro ⟨hx, hns⟩
        by_cases hxy : x = y
        · exact hxy ▸ List.mem_cons_self y (dedupFirst (y :: seen) ys)
        · rcases List.mem_cons.1 hx with h1 | h1
          · exact absurd h1 hxy
          · exact List.mem_cons_of_mem y ((mem_dedupFirst x ys (y :: seen)).2
              ⟨h1, by simp [hxy, hns]⟩)

theorem dedupFirst_sublist : ∀ (l seen : List String),
    (dedupFirst seen l).Sublist l
  | [], _ => List.Sublist.refl []
  | y :: ys, seen => by
    by_cases hys : y ∈ seen
    · rw [dedupFirst, if_pos hys]
      exact (dedupFirst_sublist ys seen).cons y
    · rw [dedupFirst, if_neg hys]
      exact (dedupFirst_sublist ys (y :: seen)).cons₂ y

theorem dedupFirst_nodup : ∀ (l seen : List String),
    (dedupFirst seen l).Nodup
  | [], _ => List.nodup_nil
  | y :: ys, seen => by
    by_cases hys : y ∈ seen
    · rw [dedupFirst, if_pos hys]
      exact dedupFirst_nodup ys seen
    · rw [dedupFirst, if_neg hys]
      refine List.nodup_cons.2 ⟨fun hmem => ?_, dedupFirst_nodup ys (y :: seen)⟩
      exact ((mem_dedupFirst y ys (y :: seen)).1 hmem).2 (List.mem_cons_self y seen)

theorem sortPairs_pairwise (h : Headers) :
    h.sortPairs.Pairwise (fun a b => a.1 ≤ b.1) := by
  have := @List.sorted_mergeSort (String × String)
    (fun a b => decide (a.1 ≤ b.1))
    (fun a b c hab hbc => by
      simp only [decide_eq_true_eq] at hab hbc ⊢
      exact le_trans hab hbc)
    (fun a b => by
      simp only [Bool.or_eq_true, decide_eq_true_eq]
      exact le_total a.1 b.1) h
  exact this.imp (by simp)

/-! Claim theorems. -/

/-- C1: the claim says a numeric redirect cap of N bounds the engine to at
most N additional requests, with the counter incremented on each hop.  The
code copies the counter without incrementing (`req.redirects =
this.redirects`), so with cap 1 a chain of three redirecting responses is
followed to its end: three additional requests are issued, exceeding the
cap. -/
theorem redirect_cap_not_enforced :
    execFollow 1 0
      [⟨301, some "/a"⟩, ⟨301, some "/b"⟩, ⟨301, some "/c"⟩, ⟨200, none⟩] =
      some (3, ⟨200, none⟩) ∧ 1 < 3 := by
  constructor
  · rfl
  · decide

/-- C2: the claim says `ok` is true iff the status code lies in [200, 300).
The code computes `statusCode <= 200 && statusCode < 300`, so 201 (in the
claimed range) yields false while 100 (outside it) yields true; only at
200 do claim and code agree. -/
theorem ok_boundary_defect :
    Response.ok 201 = false ∧ Response.ok 100 = true ∧
    Response.ok 200 = true ∧ Response.ok 299 = false := by
  decide

/-- C3: the claim says that with `compressData` enabled and
content-encoding gzip or deflate the buffered bytes are the decompressor's
output.  The code pipes the response into a fresh zlib stream but discards
the piped stream and installs the `data` listener on the raw response, so
the buffer holds the raw network bytes whatever the decompressors do: the
result below is independent of both transform parameters. -/
theorem buffer_holds_raw_compressed_bytes
    (createGunzip createDeflate : List Nat → List Nat)
    (chunks : List (List Nat)) :
    execResponseBuffer true createGunzip createDeflate (some "gzip") chunks =
      chunks.flatten ∧
    execResponseBuffer true createGunzip createDeflate (some "deflate") chunks =
      chunks.flatten :=
  ⟨rfl, rfl⟩

/-- C4 counterexample: the claim says a pre-built byte buffer body is
written unchanged.  A `Buffer` is a JavaScript `Object`, so
`JSON.stringify` replaces it before writing: the one-byte buffer `[0]` is
not what reaches the transport. -/
theorem buffer_body_not_passed_through :
    execWriteBody (RequestBody.buffer [0]) ≠ some [0] := by
  decide

/-- C4 amended: the bytes written to the transport are the JSON
stringification for a plain structured body, the fully-read contents for a
BinaryPayload body (on any size-consistent blob, its full part stream),
and for a pre-built byte buffer the UTF-8 bytes of its
`\x7b"type":"Buffer","data":[..]\x7d` JSON serialization rather than the
raw bytes. -/
theorem execWriteBody_characterization (fields : List (String × String))
    (bs : List Nat) (bl : Blob) (hwf : bl.wfb = true) :
    execWriteBody (.obj fields) =
      some (utf8Bytes (jsonStringify (.obj fields))) ∧
    execWriteBody (.blob bl) = some bl.streamBytes ∧
    execWriteBody (.buffer bs) =
      some (utf8Bytes (jsonStringify (.buffer bs))) :=
  ⟨rfl, by simp [execWriteBody, Blob.wfb_dataBytes bl hwf], rfl⟩

/-- C4 witness: the amended characterization instantiated at concrete
bodies, with the blob well-formedness hypothesis discharged by
computation. -/
theorem execWriteBody_characterization_spot :
    execWriteBody (.obj [("a", "b")]) =
      some (utf8Bytes (jsonStringify (.obj [("a", "b")]))) ∧
    execWriteBody (.blob blobNested) = some blobNested.streamBytes ∧
    execWriteBody (.buffer [0]) =
      some (utf8Bytes (jsonStringify (.buffer [0]))) :=
  execWriteBody_characterization [("a", "b")] [0] blobNested (by decide)

/-- C5: constructing a Request mutates the shared module-level defaults
object.  After one construction with options carrying explicit method,
body, timeout, follow and compressData, a second construction from empty
options observes those values; constructed from the pristine defaults the
same empty options yield the pristine values, so two-run noninterference
fails. -/
theorem shared_defaults_interference (o : RequestData) (m : String)
    (b : JsVal) (t : Nat) (f : FollowOpt) (c : Bool)
    (hm : o.method = some m) (hb : o.body = some b) (ht : o.timeout = some t)
    (hf : o.follow = some f) (hc : o.compressData = some c) :
    (Request.construct defaultRequestOptions emptyOptions).2 =
      { method := "get", body := some .nullv, timeout := none,
        follow := some (.boolv false), compressData := some false } ∧
    (Request.construct (Request.construct defaultRequestOptions o).1
        emptyOptions).2 =
      { method := m, body := some b, timeout := some t, follow := some f,
        compressData := some c } := by
  constructor
  · rfl
  · simp [Request.construct, objAssign, assignField, defaultRequestOptions,
      emptyOptions, hm, hb, ht, hf, hc]

/-- C5 witness: a concrete first construction whose method, body, timeout,
follow and compressData all leak into a later construction from empty
options. -/
theorem shared_defaults_interference_spot :
    (Request.construct defaultRequestOptions emptyOptions).2 =
      { method := "get", body := some .nullv, timeout := none,
        follow := some (.boolv false), compressData := some false } ∧
    (Request.construct
        (Request.construct defaultRequestOptions
          { method := some "post", body := some (.strv "x"),
            timeout := some 100, follow := some (.natv 3),
            compressData := some true }).1 emptyOptions).2 =
      { method := "post", body := some (.strv "x"), timeout := some 100,
        follow := some (.natv 3), compressData := some true } :=
  shared_defaults_interference
    { method := some "post", body := some (.strv "x"), timeout := some 100,
      follow := some (.natv 3), compressData := some true }
    "post" (.strv "x") 100 (.natv 3) true rfl rfl rfl rfl rfl

/-- C6: the claim says every blob, sliced or constructed, stores a size
equal to the sum of its parts' sizes.  Slicing the well-formed ten-byte
two-part blob with `slice(2, 8)` records size 6 but collects parts
totalling 8 bytes (the loop never decrements `relativeEnd` when a chunk is
taken, so the second part is copied whole), violating the invariant. -/
theorem slice_breaks_size_invariant :
    blobTwoBuf.wfb = true ∧
    (blobTwoBuf.slice 2 8).size = 6 ∧
    partsStoredSum (blobTwoBuf.slice 2 8).parts = 8 ∧
    (blobTwoBuf.slice 2 8).wfb = false := by
  decide

/-- C7: for every header name rejected by the token grammar, construction,
append, set, delete, has and getAll each fail with the invalid-header-name
error before touching the table. -/
theorem invalid_name_all_ops_fail (name : String)
    (hname : isValidHeaderName name = false) (h : Headers) (value : String) :
    Headers.ofPairs [(name, value)] = .error .invalidHeaderName ∧
    h.append name value = .error .invalidHeaderName ∧
    h.set name value = .error .invalidHeaderName ∧
    h.delete name = .error .invalidHeaderName ∧
    h.has name = .error .invalidHeaderName ∧
    h.getAll name = .error .invalidHeaderName := by
  simp [Headers.ofPairs, Headers.append, Headers.set, Headers.delete,
    Headers.has, Headers.getAll, validateHeaderName, hname,
    Except.bind, Bind.bind]

/-- C7 witness: every operation rejects the space-bearing name
"Bad Name!" on a concrete table. -/
theorem invalid_name_all_ops_fail_spot :
    Headers.ofPairs [("Bad Name!", "v")] = .error .invalidHeaderName ∧
    Headers.append [("a", "1")] "Bad Name!" "v" = .error .invalidHeaderName ∧
    Headers.set [("a", "1")] "Bad Name!" "v" = .error .invalidHeaderName ∧
    Headers.delete [("a", "1")] "Bad Name!" = .error .invalidHeaderName ∧
    Headers.has [("a", "1")] "Bad Name!" = .error .invalidHeaderName ∧
    Headers.getAll [("a", "1")] "Bad Name!" = .error .invalidHeaderName :=
  invalid_name_all_ops_fail "Bad Name!" (by decide) [("a", "1")] "v"

/-- C8: for every flat alternating name/value list, `fromRawHeaders`
returns exactly the positionally-paired entries whose name and value both
validate, lowercased, silently dropping each invalid pair; in particular
the listed example keeps `valid-name` and `another` and drops the invalid
pair. -/
theorem fromRawHeaders_drops_invalid :
    (∀ ps : List (String × String),
      fromRawHeaders (flattenPairs ps) =
        .ok ((ps.filter
            (fun p => isValidHeaderName p.1 && isValidHeaderValue p.2)).map
          (fun p => (toLowerCase p.1, p.2)))) ∧
    fromRawHeaders ["Valid-Name", "v1", "Bad Name!", "v2", "Another", "v3"] =
      .ok [("valid-name", "v1"), ("another", "v3")] := by
  constructor
  · intro ps
    have hvalid : ∀ p ∈ ps.filter
        (fun p => isValidHeaderName p.1 && isValidHeaderValue p.2),
        isValidHeaderName p.1 = true ∧ isValidHeaderValue p.2 = true := by
      intro p hp
      have := List.of_mem_filter hp
      simpa [Bool.and_eq_true] using this
    rw [fromRawHeaders, chunk2_flattenPairs, filter_pairOk_map]
    rw [headersOfLists]
    simp [headersShape_ofMap, Except.bind, Bind.bind, ofPairs_valid _ hvalid]
  · rfl

/-- C9: for every header table, whatever the insertion order that produced
it, `keys()` is strictly sorted, has no duplicates, and contains exactly
the stored (lowercased) names. -/
theorem keys_sorted_unique (h : Headers) :
    List.Sorted (· < ·) (Headers.keys h) ∧ (Headers.keys h).Nodup ∧
    ∀ n : String, n ∈ Headers.keys h ↔ n ∈ h.map Prod.fst := by
  have hnames : (h.sortPairs.map Prod.fst).Pairwise (· ≤ ·) :=
    List.pairwise_map.2 (sortPairs_pairwise h)
  have hsub := dedupFirst_sublist (h.sortPairs.map Prod.fst) []
  have hle : (Headers.keys h).Pairwise (· ≤ ·) := hnames.sublist hsub
  have hnd : (Headers.keys h).Nodup := dedupFirst_nodup _ _
  refine ⟨?_, hnd, ?_⟩
  · exact List.Pairwise.imp₂ (fun a b hab hne => lt_of_le_of_ne hab hne) hle hnd
  · intro n
    rw [Headers.keys, mem_dedupFirst]
    simp [Headers.sortPairs, List.mem_mergeSort]

/-- C10: for every size-consistent BinaryPayload, slicing the full range
`[0, size)` yields a blob whose materialized data equals the original's
materialized data byte for byte. -/
theorem slice_full_roundtrips_data (p : Blob) (h : p.wfb = true) :
    (p.slice 0 (p.size : Int)).dataBytes = p.dataBytes := by
  obtain ⟨hsz, hst⟩ := Blob.slice_zero_size p h
  rw [Blob.wfb_dataBytes p h, Blob.dataBytes]
  simp [hsz, hst, Blob.wfb_streamLen p h]

/-- C10 witness: the round trip evaluated on a concrete nested blob, its
well-formedness discharged by computation. -/
theorem slice_full_roundtrips_data_spot :
    (blobNested.slice 0 (blobNested.size : Int)).dataBytes =
      blobNested.dataBytes :=
  slice_full_roundtrips_data blobNested (by decide)

end Rikuesuto
